import Mathlib

/-!
Verification development for the Locus file-history engine
(`backend/app/storage.py`, `backend/app/database/crud.py`,
`backend/app/monitor.py`, `backend/app/main.py`).

Conventions of the shallow embedding:
* Byte strings are `List Nat`; path and name strings are `List Char`
  (`Str`), with the POSIX separator `'/'`.
* The SHA-256 hex digest (`hashlib.sha256(...).hexdigest()`) and the gzip
  codec are abstracted as parameters of a `StorageCfg`; theorems assume
  exactly the properties the code relies on (gzip round-trip,
  collision-freedom on the inputs at hand) and witnesses instantiate them
  with concrete executable functions.
* Time (`time.time()` floats) is modelled by an ordered additive group
  of instants; `ℤ` suffices because every comparison the code makes is
  order-theoretic.
* The storage root is an association list `name ↦ stored file`; the
  `chunks/` subdirectory is a second association list.  A write appends an
  entry; all writes in the source are guarded by an existence check, so
  name uniqueness is preserved.  The in-flight temp file of
  `_save_with_unknown_hash` has a fresh random name, is never visible
  under a final name and is removed on both exits of the function, so the
  model elides it and keeps only the final rename / delete outcome.
* Database tables are lists of rows in insertion order; SQLAlchemy
  `.first()` is the first list element matching the filter.
-/

namespace Locus

/-- Path / name strings as character lists. -/
abbrev Str := List Char

/-- `os.path.sep` on POSIX. -/
def sepC : Char := '/'

/-- The separator as a one-character string. -/
def sepS : Str := [sepC]

/-- Split a string at every separator character (used to model
`pathlib.Path(...).parts`; empty segments never occur in the exclusion
sets, so keeping them is harmless). -/
def splitSep : Str → List Str
  | [] => [[]]
  | a :: rest =>
    match splitSep rest with
    | [] => [[a]]
    | g :: gs => if a = sepC then [] :: g :: gs else (a :: g) :: gs

/-- `os.path.basename` on POSIX: the part after the last separator. -/
def basename (p : Str) : Str := (splitSep p).getLastD []

/-- `os.path.flatten` on POSIX, two arguments. -/
def pjoin (a b : Str) : Str :=
  if sepS <+: b then b
  else if a = [] ∨ a.getLast? = some sepC then a ++ b
  else a ++ sepS ++ b

/-- Update the first list element satisfying `f` (SQLAlchemy
`query.filter(...).first()` followed by a mutation and commit). -/
def updateFirst (f : α → Bool) (g : α → α) : List α → List α
  | [] => []
  | a :: rest => if f a then g a :: rest else a :: updateFirst f g rest

/-- First-match lookup in an association list (a directory listing:
`name ↦ content`). -/
def assocFind (n : Str) : List (Str × β) → Option β
  | [] => none
  | (m, v) :: rest => if m = n then some v else assocFind n rest

/-- Fuel-indexed block splitter (structural recursion so that the kernel
can evaluate it; the fuel is the list length). -/
def chunksOfAux (k : Nat) : Nat → List α → List (List α)
  | _, [] => []
  | 0, _ :: _ => []
  | fuel + 1, a :: rest =>
    if k = 0 then []
    else (a :: rest).take k :: chunksOfAux k fuel ((a :: rest).drop k)

/-- Fixed-size blocks of `iter(lambda: f.read(k), b"")`: for `k = 0`
Python's `read(0)` returns the sentinel immediately, producing no blocks. -/
def chunksOf (k : Nat) (l : List α) : List (List α) :=
  chunksOfAux k l.length l

/-! ## CAS store (`backend/app/storage.py`) -/

/-- `CHUNK_SIZE_BYTES = 4 * 1024 * 1024`. -/
def CHUNK_SIZE_BYTES : Nat := 4 * 1024 * 1024

/-- `CHUNKED_MIN_SIZE_BYTES = 16 * 1024 * 1024`. -/
def CHUNKED_MIN_SIZE_BYTES : Nat := 16 * 1024 * 1024

/-- `MANIFEST_EXT = ".manifest.json"`. -/
def MANIFEST_EXT : Str := ".manifest.json".toList

/-- Extension of compressed whole-file objects. -/
def gzExt : Str := ".gz".toList

/-- Extension of chunk files (`_chunk_path`). -/
def chunkExt : Str := ".chunk".toList

/-- Abstracted primitives and (monkeypatchable, as in the tests) size
constants used by the storage module: `sha` models
`hashlib.sha256(...).hexdigest()`, `compress`/`decompress` model the gzip
codec. -/
structure StorageCfg where
  sha : List Nat → Str
  compress : List Nat → List Nat
  decompress : List Nat → List Nat
  chunkSize : Nat
  chunkedMin : Nat

/-- A chunk reference inside a manifest: `{"hash": ..., "size": ...}`. -/
structure ChunkRef where
  hash : Str
  size : Nat
deriving DecidableEq

/-- The JSON manifest of a chunked object. -/
structure Manifest where
  file_hash : Str
  file_size : Nat
  chunk_size : Nat
  chunks : List ChunkRef
deriving DecidableEq

/-- Content of a file in the storage root.  A serialized manifest is kept
as structured data (the JSON codec is abstracted); every other file is raw
bytes. -/
inductive StoredFile where
  | data (b : List Nat)
  | manifest (m : Manifest)
deriving DecidableEq

/-- The storage root: its top-level files and the `chunks/` subdirectory. -/
structure Store where
  files : List (Str × StoredFile)
  chunks : List (Str × List Nat)
deriving DecidableEq

/-- Metadata dictionary returned by the save paths. -/
structure SaveMeta where
  storage_path : Str
  file_hash : Str
  file_size : Nat
  filename : Str
deriving DecidableEq

/-- Write one chunk file if absent (`if not chunk_path.exists(): ... write`). -/
def writeChunk1 (cfg : StorageCfg) (st : Store) (c : List Nat) : Store :=
  let cname := cfg.sha c ++ chunkExt
  if (assocFind cname st.chunks).isSome then st
  else { st with chunks := st.chunks ++ [(cname, c)] }

/-- The chunk-writing loop of `_save_chunked_file`. -/
def writeChunks (cfg : StorageCfg) : Store → List (List Nat) → Store
  | st, [] => st
  | st, c :: cs => writeChunks cfg (writeChunk1 cfg st c) cs

/-- Body of `_save_chunked_file` past the known-hash dedup check: write the
missing chunks, then the manifest unless it already exists. -/
def save_chunked_core (cfg : StorageCfg) (st : Store) (data : List Nat) :
    SaveMeta × Store :=
  let cs := chunksOf cfg.chunkSize data
  let st1 := writeChunks cfg st cs
  let fh := cfg.sha data
  let mname := fh ++ MANIFEST_EXT
  let meta : SaveMeta := ⟨mname, fh, data.length, mname⟩
  if (assocFind mname st1.files).isSome then (meta, st1)
  else
    (meta, { st1 with
      files := st1.files ++
        [(mname, .manifest ⟨fh, data.length, cfg.chunkSize,
          cs.map (fun c => ⟨cfg.sha c, c.length⟩)⟩)] })

/-- `_save_chunked_file` (storage.py:242-292).  The IO-exception branch
returning `None` has no counterpart in the pure model. -/
def save_chunked_file (cfg : StorageCfg) (st : Store) (data : List Nat)
    (known : Option Str) : SaveMeta × Store :=
  match known with
  | some h =>
    if (assocFind (h ++ MANIFEST_EXT) st.files).isSome then
      (⟨h ++ MANIFEST_EXT, h, data.length, h ++ MANIFEST_EXT⟩, st)
    else save_chunked_core cfg st data
  | none => save_chunked_core cfg st data

/-- `_save_with_known_hash` (storage.py:295-328). -/
def save_with_known_hash (cfg : StorageCfg) (st : Store) (data : List Nat)
    (h : Str) : SaveMeta × Store :=
  let name := h ++ gzExt
  let meta : SaveMeta := ⟨name, h, data.length, name⟩
  match assocFind name st.files with
  | some _ => (meta, st)
  | none => (meta, { st with files := st.files ++ [(name, .data (cfg.compress data))] })

/-- `_save_with_unknown_hash` (storage.py:331-370): stream-hash and
compress to a temp, then dedup-delete or rename to the final name. -/
def save_with_unknown_hash (cfg : StorageCfg) (st : Store) (data : List Nat) :
    SaveMeta × Store :=
  let h := cfg.sha data
  let name := h ++ gzExt
  let meta : SaveMeta := ⟨name, h, data.length, name⟩
  match assocFind name st.files with
  | some _ => (meta, st)
  | none => (meta, { st with files := st.files ++ [(name, .data (cfg.compress data))] })

/-- `save_file_version` (storage.py:373-399).  `src` is the content of the
source file, `none` when it does not exist on disk. -/
def save_file_version (cfg : StorageCfg) (st : Store) (src : Option (List Nat))
    (known : Option Str) : Option SaveMeta × Store :=
  match src with
  | none => (none, st)
  | some data =>
    if cfg.chunkedMin ≤ data.length then
      let r := save_chunked_file cfg st data known
      (some r.1, r.2)
    else
      match known with
      | some h =>
        let r := save_with_known_hash cfg st data h
        (some r.1, r.2)
      | none =>
        let r := save_with_unknown_hash cfg st data
        (some r.1, r.2)

/-- The chunk-reading loop of `restore_file_version`: abort when a chunk
file is missing, otherwise concatenate the chunk files in order. -/
def readChunks (st : Store) : List ChunkRef → Option (List Nat)
  | [] => some []
  | cr :: rest =>
    match assocFind (cr.hash ++ chunkExt) st.chunks with
    | none => none
    | some b => (readChunks st rest).map (fun t => b ++ t)

/-- `restore_file_version` (storage.py:402-437): `some bytes` is a
successful restore writing those bytes at the destination, `none` is the
`False` return.  Reading a file whose content does not parse for its
extension raises in the source and returns `False`; copying a serialized
manifest verbatim through the legacy branch is left out of the model (such
a name never ends in neither extension here). -/
def restore_file_version (cfg : StorageCfg) (st : Store) (storage_path : Str) :
    Option (List Nat) :=
  match assocFind storage_path st.files with
  | none => none
  | some f =>
    if MANIFEST_EXT <:+ storage_path then
      match f with
      | .manifest m => readChunks st m.chunks
      | .data _ => none
    else if gzExt <:+ storage_path then
      match f with
      | .data b => some (cfg.decompress b)
      | .manifest _ => none
    else
      match f with
      | .data b => some b
      | .manifest _ => none

/-! ## Garbage collection (`storage.py:450-510`)

`run_garbage_collection` only iterates the *top level* of the storage root
(`STORAGE_ROOT.iterdir()`), skipping every entry that is not a regular
file — in particular the `chunks/` subdirectory — so the GC model carries
the top-level directory listing (name, regular-file flag, mtime) and the
chunk files separately; the latter are returned untouched. -/

/-- `GC_GRACE_PERIOD_SECONDS = 60 * 60`. -/
def GC_GRACE_PERIOD_SECONDS : ℤ := 60 * 60

/-- A top-level directory entry of the storage root.  `mtime = none`
models `stat` failing (an `OSError`), which the source treats as "within
the grace period". -/
structure DirEntry where
  name : Str
  isFile : Bool
  mtime : Option ℤ
deriving DecidableEq

/-- The storage root as the GC sees it. -/
structure GCRoot where
  top : List DirEntry
  chunks : List (Str × List Nat)
deriving DecidableEq

/-- `_is_within_grace_period` (storage.py:453-458). -/
def is_within_grace_period (e : DirEntry) (now : ℤ) : Bool :=
  match e.mtime with
  | none => true
  | some t => now - t < GC_GRACE_PERIOD_SECONDS

/-- `run_garbage_collection` (storage.py:461-510): one pass over the top
level, deleting each regular file that is out of grace and whose basename
is not in the active set. -/
def run_garbage_collection (active : List Str) (now : ℤ) (root : GCRoot) :
    GCRoot :=
  { top := root.top.filter fun e =>
      !e.isFile || is_within_grace_period e now || decide (e.name ∈ active),
    chunks := root.chunks }

/-! ## Database rows and `crud.py` -/

/-- A `file_records` row. -/
structure FileRecordR where
  id : Nat
  current_path : Str
deriving DecidableEq

/-- A `file_versions` row. -/
structure FileVersionR where
  id : Nat
  file_record_id : Option Nat
  original_path : Str
  storage_path : Str
  version_number : Nat
  file_hash : Str
  file_size_bytes : Nat
deriving DecidableEq

/-- A `backup_tasks` row. -/
structure BackupTaskR where
  id : Nat
  src_path : Str
  status : Str
  attempts : Nat
deriving DecidableEq

/-- A `watched_paths` row. -/
structure WatchedPathR where
  id : Nat
  path : Str
  is_active : Bool
deriving DecidableEq

/-- A `file_events` row. -/
structure FileEventR where
  id : Nat
  event_type : Str
  src_path : Str
  dest_path : Option Str
deriving DecidableEq

/-- The relational state used by the claims, tables in insertion order. -/
structure DB where
  records : List FileRecordR
  versions : List FileVersionR
  tasks : List BackupTaskR
  wps : List WatchedPathR
  events : List FileEventR
  nextRecordId : Nat
  nextVersionId : Nat
deriving DecidableEq

/-- `get_file_record` (crud.py:133-138). -/
def get_file_record (db : DB) (path : Str) : Option FileRecordR :=
  db.records.find? fun r => r.current_path = path

/-- The `version.file_record` relationship: the `file_records` row the
version's foreign key points at. -/
def recordOf (db : DB) (v : FileVersionR) : Option FileRecordR :=
  match v.file_record_id with
  | none => none
  | some i => db.records.find? fun r => r.id = i

/-- The candidate test of `_try_recover_file_record`: same content hash,
linked to a record, same basename, and the old path gone from disk. -/
def recoveryPred (db : DB) (path : Str) (content_hash : Str)
    (fs : Str → Option (List Nat)) (v : FileVersionR) : Bool :=
  v.file_hash = content_hash &&
  (match recordOf db v with
   | none => false
   | some old_record =>
     basename old_record.current_path = basename path &&
     (fs old_record.current_path).isNone)

/-- `_try_recover_file_record` (crud.py:142-173).  `fs` is the disk: the
content of each path, `none` when `os.path.exists` is false.  Returns the
relinked record and the updated database. -/
def try_recover_file_record (db : DB) (path : Str) (content_hash : Str)
    (fs : Str → Option (List Nat)) : Option (FileRecordR × DB) :=
  match db.versions.find? (recoveryPred db path content_hash fs) with
  | none => none
  | some v =>
    match recordOf db v with
    | none => none
    | some old_record =>
      let records' :=
        updateFirst (fun r => r.id = old_record.id)
          (fun r => { r with current_path := path }) db.records
      some ({ old_record with current_path := path }, { db with records := records' })

/-- `create_file_record` (crud.py:177-194). -/
def create_file_record (db : DB) (path : Str) (content_hash : Option Str)
    (fs : Str → Option (List Nat)) : FileRecordR × DB :=
  match get_file_record db path with
  | some existing => (existing, db)
  | none =>
    match content_hash with
    | some h =>
      match try_recover_file_record db path h fs with
      | some (recovered, db') => (recovered, db')
      | none =>
        let r : FileRecordR := ⟨db.nextRecordId, path⟩
        (r, { db with records := db.records ++ [r],
                      nextRecordId := db.nextRecordId + 1 })
    | none =>
      let r : FileRecordR := ⟨db.nextRecordId, path⟩
      (r, { db with records := db.records ++ [r],
                    nextRecordId := db.nextRecordId + 1 })

/-- `swap_path_prefix` (crud.py:208-212). -/
def swap_path_prefix (current_path old_prefix new_prefix : Str) : Str :=
  let relative_suffix := current_path.drop old_prefix.length
  if sepS <+: relative_suffix then new_prefix ++ relative_suffix
  else pjoin new_prefix relative_suffix

/-- The segment-boundary form of a directory path: the platform separator
is appended unless already present (`update_directory_records`'s
`norm_old_dir`). -/
def dirBoundary (old_dir : Str) : Str :=
  if sepS <:+ old_dir then old_dir else old_dir ++ sepS

/-- `update_directory_records` (crud.py:216-238): the table after the
rewrite and the returned count. -/
def update_directory_records (recs : List FileRecordR) (old_dir new_dir : Str) :
    List FileRecordR × Nat :=
  let norm_old_dir := dirBoundary old_dir
  (recs.map fun r =>
      if old_dir <+: r.current_path ∧ norm_old_dir <+: r.current_path then
        { r with current_path := swap_path_prefix r.current_path old_dir new_dir }
      else r,
   recs.countP fun r =>
      decide (old_dir <+: r.current_path ∧ norm_old_dir <+: r.current_path))

/-- `update_directory_events` (crud.py:282-310): rewrite `src_path` /
`dest_path` prefixes of matching events; the count adds one per rewritten
field.  Python's truthiness test `if event.src_path` makes the empty
string never match. -/
def update_directory_events (events : List FileEventR) (old_dir new_dir : Str) :
    List FileEventR × Nat :=
  (events.map fun e =>
      { e with
        src_path :=
          if e.src_path ≠ [] ∧ old_dir <+: e.src_path then
            swap_path_prefix e.src_path old_dir new_dir
          else e.src_path,
        dest_path := e.dest_path.map fun d =>
          if d ≠ [] ∧ old_dir <+: d then swap_path_prefix d old_dir new_dir
          else d },
   events.foldl (fun n e =>
      (if e.src_path ≠ [] ∧ old_dir <+: e.src_path then n + 1 else n) +
      (match e.dest_path with
       | some d => if d ≠ [] ∧ old_dir <+: d then 1 else 0
       | none => 0)) 0)

/-- `update_watched_path` (crud.py:38-51): first active row with the old
path gets the new path. -/
def update_watched_path (wps : List WatchedPathR) (old_path new_path : Str) :
    List WatchedPathR :=
  updateFirst (fun w => w.path = old_path && w.is_active)
    (fun w => { w with path := new_path }) wps

/-- `has_pending_backup_task` (crud.py:74-83). -/
def has_pending_backup_task (tasks : List BackupTaskR) (src_path : Str) : Bool :=
  tasks.any fun t =>
    t.src_path = src_path &&
    (t.status = "pending".toList || t.status = "processing".toList)

/-- Descending insertion by `version_number` (models the
`order_by(version_number.desc())` of `get_file_versions`). -/
def insertDesc (v : FileVersionR) : List FileVersionR → List FileVersionR
  | [] => [v]
  | w :: ws =>
    if w.version_number ≤ v.version_number then v :: w :: ws
    else w :: insertDesc v ws

/-- Sort a version list by `version_number` descending. -/
def sortVersionsDesc (l : List FileVersionR) : List FileVersionR :=
  l.foldr insertDesc []

/-- `get_file_versions` (crud.py:359-377). -/
def get_file_versions (db : DB) (original_path : Str) : List FileVersionR :=
  match get_file_record db original_path with
  | some record =>
    sortVersionsDesc (db.versions.filter fun v => v.file_record_id = some record.id)
  | none =>
    sortVersionsDesc (db.versions.filter fun v => v.original_path = original_path)

/-- `create_file_version` (crud.py:335-355). -/
def create_file_version (db : DB) (original_path storage_path : Str)
    (version_number : Nat) (file_hash : Str) (file_size : Nat)
    (file_record_id : Option Nat) : FileVersionR × DB :=
  let v : FileVersionR :=
    ⟨db.nextVersionId, file_record_id, original_path, storage_path,
     version_number, file_hash, file_size⟩
  (v, { db with versions := db.versions ++ [v],
                nextVersionId := db.nextVersionId + 1 })

/-! ## Monitor (`backend/app/monitor.py`) -/

/-- Suffixes rejected by the watcher: `(".tmp", ".crdownload", "~", ".swp")`. -/
def tempSuffixes : List Str :=
  [".tmp".toList, ".crdownload".toList, "~".toList, ".swp".toList]

/-- `register_restore_start` (monitor.py:23-26): record
`expiry = now + 2.0` for the normalised path.  `norm` models
`_norm_path = os.path.normcase(os.path.abspath(...))`, which depends on
process state and is passed in.  Dict assignment replaces any previous
entry. -/
def register_restore_start (norm : Str → Str) (pr : List (Str × ℤ))
    (now : ℤ) (file_path : Str) : List (Str × ℤ) :=
  (norm file_path, now + 2) :: pr.filter fun kv => kv.1 ≠ norm file_path

/-- Outcome of one `_backup_file` call. -/
inductive BackupOutcome where
  | suppressed
  | skippedTemp
  | fileGone
  | dedupSkip
  | backedUp
  | saveFailed
deriving DecidableEq

/-- Result state of one `_backup_file` call. -/
structure BackupResult where
  pr : List (Str × ℤ)
  db : DB
  st : Store
  outcome : BackupOutcome
deriving DecidableEq

/-- `_backup_file` (monitor.py:40-96) past the restore-suppression gate:
temp-suffix filter, early hashing, identity lookup/recovery, identity-level
dedup against the newest version, CAS write and version insert. -/
def backup_file_main (cfg : StorageCfg) (pr : List (Str × ℤ)) (db : DB)
    (st : Store) (fs : Str → Option (List Nat)) (src_path : Str) :
    BackupResult :=
  if tempSuffixes.any (fun s => s <:+ src_path) then ⟨pr, db, st, .skippedTemp⟩
  else
    match fs src_path with
    | none => ⟨pr, db, st, .fileGone⟩
    | some content =>
      let current_hash := cfg.sha content
      let fdb := create_file_record db src_path (some current_hash) fs
      let file_record := fdb.1
      let db1 := fdb.2
      let versions := get_file_versions db1 src_path
      let next_version := versions.length + 1
      match versions with
      | last_version :: _ =>
        if last_version.file_hash = current_hash then ⟨pr, db1, st, .dedupSkip⟩
        else
          match save_file_version cfg st (fs src_path) none with
          | (some meta, st') =>
            let db2 := (create_file_version db1 src_path meta.storage_path
              next_version meta.file_hash meta.file_size (some file_record.id)).2
            ⟨pr, db2, st', .backedUp⟩
          | (none, st') => ⟨pr, db1, st', .saveFailed⟩
      | [] =>
        match save_file_version cfg st (fs src_path) none with
        | (some meta, st') =>
          let db2 := (create_file_version db1 src_path meta.storage_path
            next_version meta.file_hash meta.file_size (some file_record.id)).2
          ⟨pr, db2, st', .backedUp⟩
        | (none, st') => ⟨pr, db1, st', .saveFailed⟩

/-- `_backup_file` (monitor.py:40-96): the restore-suppression gate, then
the main body.  Within the expiry window the event is dropped with the
entry retained; once expired the entry is popped and processing continues. -/
def backup_file (cfg : StorageCfg) (norm : Str → Str) (pr : List (Str × ℤ))
    (now : ℤ) (db : DB) (st : Store) (fs : Str → Option (List Nat))
    (src_path : Str) : BackupResult :=
  match List.lookup (norm src_path) pr with
  | some expires_at =>
    if now ≤ expires_at then ⟨pr, db, st, .suppressed⟩
    else
      backup_file_main cfg (pr.filter fun kv => kv.1 ≠ norm src_path) db st fs
        src_path
  | none => backup_file_main cfg pr db st fs src_path

/-- Commands the root handler enqueues for the monitor thread. -/
inductive MonitorCmd where
  | rename (old_path new_path : Str)
deriving DecidableEq

/-- `RootEventHandler.on_moved` (monitor.py:180-216), the branch where the
moved directory is the watched root: update the `WatchedPath` row, rewrite
the file records under the root, then hand a `rename` command to the
monitor service (`handle_root_rename`), which drops the old watch and
resynchronises on the monitor thread. -/
def root_on_moved (db : DB) (root new_path : Str) : DB × List MonitorCmd :=
  let wps' := update_watched_path db.wps root new_path
  let recs' := (update_directory_records db.records root new_path).1
  ({ db with wps := wps', records := recs' }, [.rename root new_path])

/-! ## Exclusion filter (`storage.py:21-94`) -/

/-- `DEFAULT_EXCLUDED_DIRS`. -/
def DEFAULT_EXCLUDED_DIRS : List Str :=
  ["node_modules".toList, "npm-debug.log".toList, "yarn.lock".toList,
   "venv".toList, ".venv".toList, "site-packages".toList,
   "__pycache__".toList, ".pytest_cache".toList, ".mypy_cache".toList,
   ".ruff_cache".toList, ".tox".toList, ".git".toList, ".svn".toList,
   ".hg".toList, ".idea".toList, ".vscode".toList, ".ropeproject".toList,
   "dist".toList, "build".toList, "target".toList,
   "pip-wheel-metadata".toList, ".eggs".toList, "egg-info".toList,
   ".cache".toList, ".DS_Store".toList, "Thumbs.db".toList,
   "desktop.ini".toList, ".sass-cache".toList, ".gradle".toList,
   "node_repl_history".toList, "cache".toList, ".classpath".toList,
   ".project".toList, ".settings".toList]

/-- `is_excluded_path` (storage.py:85-94): some path segment is in the
union of the default and custom exclusion sets. -/
def is_excluded_path (custom : List Str) (path : Str) : Bool :=
  (splitSep path).any fun part =>
    part ∈ DEFAULT_EXCLUDED_DIRS || part ∈ custom

/-! ## Restore endpoint (`backend/app/main.py:607-668`) -/

/-- A normalised absolute path as produced by `_normalize_path`
(`normcase(abspath(realpath(path)))`): a drive (empty on POSIX) and the
path segments. -/
structure NPath where
  drive : Str
  segs : List Str
deriving DecidableEq

/-- A raw path string of a request: either already-normalised absolute, or
relative. -/
inductive RawPath where
  | abs (p : NPath)
  | rel (s : Str)
deriving DecidableEq

/-- Longest common leading segment run — `os.path.commonpath` on two
normalised absolute paths of the same drive. -/
def commonSegs : List Str → List Str → List Str
  | a :: as_, b :: bs => if a = b then a :: commonSegs as_ bs else []
  | _, _ => []

/-- `_is_within_watched_paths` (main.py:611-624): some watched root whose
`commonpath` with the target is the root itself; differing drives raise
`ValueError` and the root is skipped. -/
def is_within_watched_paths (target : NPath) (watched : List NPath) : Bool :=
  watched.any fun w =>
    target.drive = w.drive && commonSegs target.segs w.segs = w.segs

/-- The version row as the endpoint reads it. -/
structure VersionE where
  id : Nat
  storage_path : Str
  original_path : RawPath
  version_number : Nat
deriving DecidableEq

/-- Side effects of the endpoint, in program order. -/
inductive RestoreAction where
  | registerRestore (target : NPath)
  | restoreBytes (storage_path : Str) (target : NPath)
deriving DecidableEq

/-- HTTP-level outcome of the endpoint. -/
inductive RestoreOutcome where
  | notFound
  | badRequest
  | forbidden
  | restoreFailed
  | restored
deriving DecidableEq

/-- `restore_version` (main.py:627-668): look up the version, pick the
destination (request override or the version's original path), reject
missing/relative destinations with 400, destinations outside every active
watched root with 403; otherwise record the suppression entry and then
restore.  `storeOk` is the success of `storage.restore_file_version`. -/
def restore_version (version? : Option VersionE) (dest? : Option RawPath)
    (watched : List NPath) (storeOk : Bool) :
    RestoreOutcome × List RestoreAction :=
  match version? with
  | none => (.notFound, [])
  | some v =>
    let target_path := dest?.getD v.original_path
    if target_path = .rel [] then (.badRequest, [])
    else
      match target_path with
      | .rel _ => (.badRequest, [])
      | .abs p =>
        if is_within_watched_paths p watched then
          ((if storeOk then .restored else .restoreFailed),
           [.registerRestore p, .restoreBytes v.storage_path p])
        else (.forbidden, [])

/-! ## Concrete instances used by the witnesses -/

/-- Executable stand-ins for the abstracted primitives: an injective-on-
bytes name encoding for SHA-256 and the identity codec for gzip (any codec
with a left inverse satisfies the theorems' hypotheses). -/
def mockCfg : StorageCfg :=
  { sha := fun b => b.map fun n => Char.ofNat (n % 256 + 65),
    compress := id, decompress := id, chunkSize := 2, chunkedMin := 4 }

/-! ## Helper lemmas -/

theorem assocFind_append_some {n : Str} {v : β} :
    ∀ {l₁ l₂ : List (Str × β)}, assocFind n l₁ = some v →
      assocFind n (l₁ ++ l₂) = some v := by
  intro l₁ l₂ h
  induction l₁ with
  | nil => simp [assocFind] at h
  | cons a rest ih =>
    obtain ⟨m, w⟩ := a
    by_cases hm : m = n
    · simp only [assocFind, List.cons_append, if_pos hm] at h ⊢; exact h
    · simp only [assocFind, List.cons_append, if_neg hm] at h ⊢; exact ih h

theorem assocFind_append_none {n : Str} :
    ∀ {l₁ l₂ : List (Str × β)}, assocFind n l₁ = none →
      assocFind n (l₁ ++ l₂) = assocFind n l₂ := by
  intro l₁ l₂ h
  induction l₁ with
  | nil => simp
  | cons a rest ih =>
    obtain ⟨m, w⟩ := a
    by_cases hm : m = n
    · simp only [assocFind, if_pos hm] at h
      exact Option.noConfusion h
    · simp only [assocFind, List.cons_append, if_neg hm] at h ⊢; exact ih h

theorem assocFind_countP_zero {n : Str} :
    ∀ {l : List (Str × β)}, assocFind n l = none →
      l.countP (fun kv => decide (kv.1 = n)) = 0 := by
  intro l h
  induction l with
  | nil => simp
  | cons a rest ih =>
    obtain ⟨m, w⟩ := a
    by_cases hm : m = n
    · simp [assocFind, hm] at h
    · simp only [assocFind, if_neg hm] at h
      simp [List.countP_cons, hm, ih h]

theorem updateFirst_eq_map {f : α → Bool} {g : α → α} :
    ∀ l : List α, (l.filter f).length ≤ 1 →
      updateFirst f g l = l.map fun a => if f a then g a else a := by
  intro l
  induction l with
  | nil => intro _; rfl
  | cons a rest ih =>
    intro hu
    cases hfa : f a with
    | true =>
      simp only [updateFirst, hfa, if_true, List.map_cons]
      have hrest : rest.filter f = [] := by
        rw [List.filter_cons_of_pos hfa, List.length_cons] at hu
        have h1 : (rest.filter f).length = 0 := by omega
        exact List.length_eq_zero.mp h1
      have hnone : ∀ b ∈ rest, f b = false := by
        intro b hb
        have := List.filter_eq_nil_iff.mp hrest b hb
        simpa using this
      have : rest.map (fun a => if f a then g a else a) = rest := by
        calc rest.map (fun a => if f a then g a else a)
            = rest.map id := List.map_congr_left (fun b hb => by simp [hnone b hb])
          _ = rest := List.map_id rest
      rw [this]
    | false =>
      simp only [updateFirst, hfa, if_false, List.map_cons, Bool.false_eq_true]
      have hle : (rest.filter f).length ≤ 1 := by
        rw [List.filter_cons_of_neg (by simp [hfa])] at hu
        exact hu
      rw [ih hle]

theorem prefix_dirBoundary (old_dir : Str) : old_dir <+: dirBoundary old_dir := by
  unfold dirBoundary
  split
  · exact List.prefix_rfl
  · exact List.prefix_append old_dir sepS

theorem prefix_of_boundary {old_dir p : Str}
    (h : dirBoundary old_dir <+: p) : old_dir <+: p :=
  (prefix_dirBoundary old_dir).trans h

theorem suffix_of_suffix_length_le {l₁ l₂ l : List α}
    (h1 : l₁ <:+ l) (h2 : l₂ <:+ l) (hle : l₁.length ≤ l₂.length) :
    l₁ <:+ l₂ := by
  rw [← List.reverse_prefix] at h1 h2 ⊢
  exact List.prefix_of_prefix_length_le h1 h2 (by simpa using hle)

theorem not_manifest_suffix_gz (h : Str) : ¬ MANIFEST_EXT <:+ h ++ gzExt := by
  intro hman
  have hgz : gzExt <:+ h ++ gzExt := List.suffix_append h gzExt
  have hsub : gzExt <:+ MANIFEST_EXT :=
    suffix_of_suffix_length_le hgz hman (by decide)
  exact absurd hsub (by decide)

/-! ## Claims -/

/-- C10: `save_file_version` on a source path that does not exist on disk
returns `None` without raising and creates no new object in the storage
root. -/
theorem save_file_version_missing_src (cfg : StorageCfg) (st : Store)
    (known : Option Str) : save_file_version cfg st none known = (none, st) := rfl

/-- C2: after one `run_garbage_collection` pass with active set `S`: every
top-level regular file whose name is in `S` survives; every top-level
regular file older than the grace period and not in `S` is deleted; and
nothing under the `chunks/` subdirectory is touched. -/
theorem run_garbage_collection_spec (active : List Str) (now : ℤ)
    (root : GCRoot) :
    (∀ e ∈ root.top, e.isFile = true → e.name ∈ active →
      e ∈ (run_garbage_collection active now root).top) ∧
    (∀ e ∈ root.top, e.isFile = true → e.name ∉ active →
      ∀ t, e.mtime = some t → GC_GRACE_PERIOD_SECONDS < now - t →
      e ∉ (run_garbage_collection active now root).top) ∧
    (run_garbage_collection active now root).chunks = root.chunks := by
  refine ⟨?_, ?_, rfl⟩
  · intro e he hf ha
    simp only [run_garbage_collection, List.mem_filter]
    exact ⟨he, by simp [ha]⟩
  · intro e he hf ha t ht hold
    simp only [run_garbage_collection, List.mem_filter]
    rintro ⟨-, hp⟩
    simp only [hf, Bool.not_true, Bool.false_or, Bool.or_eq_true,
      decide_eq_true_eq, is_within_grace_period, ht] at hp
    rcases hp with hp | hp
    · simp only [GC_GRACE_PERIOD_SECONDS, decide_eq_true_eq] at hp hold ⊢
      omega
    · exact ha hp

/-- Concrete storage root for the GC witness. -/
def gcRootW : GCRoot :=
  ⟨[⟨"live.gz".toList, true, some 0⟩, ⟨"dead.gz".toList, true, some 0⟩,
    ⟨"new.gz".toList, true, some 9000⟩, ⟨"chunks".toList, false, some 0⟩],
   [("c1.chunk".toList, [1, 2])]⟩

theorem run_garbage_collection_spec_witness :
    (⟨"live.gz".toList, true, some 0⟩ : DirEntry) ∈
      (run_garbage_collection ["live.gz".toList] 10000 gcRootW).top ∧
    (⟨"dead.gz".toList, true, some 0⟩ : DirEntry) ∉
      (run_garbage_collection ["live.gz".toList] 10000 gcRootW).top ∧
    (run_garbage_collection ["live.gz".toList] 10000 gcRootW).chunks =
      gcRootW.chunks := by
  refine ⟨?_, ?_, (run_garbage_collection_spec ["live.gz".toList] 10000 gcRootW).2.2⟩
  · exact (run_garbage_collection_spec ["live.gz".toList] 10000 gcRootW).1
      _ (by decide) (by decide) (by decide)
  · exact (run_garbage_collection_spec ["live.gz".toList] 10000 gcRootW).2.1
      _ (by decide) (by decide) (by decide) 0 (by decide) (by decide)

/-- Pointwise behaviour of `update_directory_records`: a record is
rewritten iff its path extends the old directory on a segment boundary. -/
theorem update_directory_records_getElem (recs : List FileRecordR)
    (od nd : Str) (i : Nat) (r : FileRecordR) (hir : recs[i]? = some r) :
    (¬ dirBoundary od <+: r.current_path →
      (update_directory_records recs od nd).1[i]? = some r) ∧
    (dirBoundary od <+: r.current_path →
      (update_directory_records recs od nd).1[i]? =
        some { r with current_path := swap_path_prefix r.current_path od nd }) := by
  have hmap : (update_directory_records recs od nd).1[i]? =
      (recs[i]?).map (fun r =>
        if od <+: r.current_path ∧ dirBoundary od <+: r.current_path then
          { r with current_path := swap_path_prefix r.current_path od nd }
        else r) := by
    simp [update_directory_records, List.getElem?_map]
  constructor
  · intro hnb
    rw [hmap, hir, Option.map_some']
    have : ¬ (od <+: r.current_path ∧ dirBoundary od <+: r.current_path) :=
      fun hc => hnb hc.2
    rw [if_neg this]
  · intro hb
    rw [hmap, hir, Option.map_some']
    rw [if_pos ⟨prefix_of_boundary hb, hb⟩]

/-- C4: `update_directory_records` rewrites `current_path` exactly for the
records whose path extends `old_dir` on a segment boundary (`old_dir`
followed by the separator, unless `old_dir` already ends in it), leaves
every other record unchanged, returns the number of rewritten records, and
in particular renaming `/A/Test` to `/A/NewName` never touches a record
under `/A/Testing/`. -/
theorem update_directory_records_spec (recs : List FileRecordR)
    (old_dir new_dir : Str) :
    ((update_directory_records recs old_dir new_dir).1.length = recs.length) ∧
    (∀ (i : Nat) (r : FileRecordR), recs[i]? = some r →
      (¬ dirBoundary old_dir <+: r.current_path →
        (update_directory_records recs old_dir new_dir).1[i]? = some r) ∧
      (dirBoundary old_dir <+: r.current_path →
        (update_directory_records recs old_dir new_dir).1[i]? =
          some { r with current_path :=
            swap_path_prefix r.current_path old_dir new_dir })) ∧
    ((update_directory_records recs old_dir new_dir).2 =
      recs.countP fun r => decide (dirBoundary old_dir <+: r.current_path)) ∧
    (∀ (i : Nat) (r : FileRecordR), recs[i]? = some r →
      "/A/Testing/".toList <+: r.current_path →
      (update_directory_records recs "/A/Test".toList "/A/NewName".toList).1[i]? =
        some r) := by
  refine ⟨by simp [update_directory_records],
    fun i r hir => update_directory_records_getElem recs old_dir new_dir i r hir,
    ?_, ?_⟩
  · unfold update_directory_records
    refine List.countP_congr ?_
    intro r _
    by_cases hb : dirBoundary old_dir <+: r.current_path
    · simp [hb, prefix_of_boundary hb]
    · simp only [decide_eq_true_eq, decide_eq_false_iff_not]
      simp [hb]
  · intro i r hir hpre
    refine (update_directory_records_getElem recs "/A/Test".toList
      "/A/NewName".toList i r hir).1 ?_
    intro hcon
    have hbe : dirBoundary "/A/Test".toList = "/A/Test/".toList := by decide
    rw [hbe] at hcon
    have hsub : "/A/Test/".toList <+: "/A/Testing/".toList :=
      List.prefix_of_prefix_length_le hcon hpre (by decide)
    exact absurd hsub (by decide)

/-- Concrete record table for the directory-rename witness. -/
def recsW : List FileRecordR :=
  [⟨1, "/A/Test/f.txt".toList⟩, ⟨2, "/A/Testing/g.txt".toList⟩]

theorem update_directory_records_spec_witness :
    ((update_directory_records recsW "/A/Test".toList "/A/NewName".toList).1[1]? =
      some ⟨2, "/A/Testing/g.txt".toList⟩) ∧
    ((update_directory_records recsW "/A/Test".toList "/A/NewName".toList).1[0]? =
      some ⟨1, swap_path_prefix "/A/Test/f.txt".toList "/A/Test".toList
        "/A/NewName".toList⟩) ∧
    ((update_directory_records recsW "/A/Test".toList "/A/NewName".toList).2 =
      recsW.countP fun r =>
        decide (dirBoundary "/A/Test".toList <+: r.current_path)) := by
  refine ⟨?_, ?_, (update_directory_records_spec recsW "/A/Test".toList
    "/A/NewName".toList).2.2.1⟩
  · exact (update_directory_records_spec recsW "/A/Test".toList
      "/A/NewName".toList).2.2.2 1 ⟨2, "/A/Testing/g.txt".toList⟩
      (by decide) (by decide)
  · exact ((update_directory_records_spec recsW "/A/Test".toList
      "/A/NewName".toList).2.1 0 ⟨1, "/A/Test/f.txt".toList⟩ (by decide)).2
      (by decide)

theorem lookup_filter_ne (k : Str) (l : List (Str × ℤ)) :
    List.lookup k (l.filter fun kv => kv.1 ≠ k) = none := by
  induction l with
  | nil => rfl
  | cons a rest ih =>
    obtain ⟨m, v⟩ := a
    by_cases hm : m = k
    · simpa [List.filter_cons, hm] using ih
    · have hk : (k == m) = false := by
        simp only [beq_eq_false_iff_ne, ne_eq]
        exact fun hh => hm hh.symm
      have hfil : ((m, v) :: rest).filter (fun kv => kv.1 ≠ k) =
          (m, v) :: rest.filter (fun kv => kv.1 ≠ k) := by
        simp [List.filter_cons, hm]
      rw [hfil]
      simpa [List.lookup, hk] using ih

theorem backup_file_main_pr (cfg : StorageCfg) (pr : List (Str × ℤ)) (db : DB)
    (st : Store) (fs : Str → Option (List Nat)) (src_path : Str) :
    (backup_file_main cfg pr db st fs src_path).pr = pr := by
  unfold backup_file_main
  dsimp only
  repeat' split
  all_goals rfl

/-- C3: the restore endpoint rejects a relative destination with a 400,
rejects (with a 403 and no side effect) an absolute destination that is
not inside any active watched root in the `commonpath` sense, and on an
allowed request records the suppression entry before restoring any bytes. -/
theorem restore_version_spec (v : VersionE) (dest? : Option RawPath)
    (watched : List NPath) (storeOk : Bool) :
    (∀ s : Str, dest?.getD v.original_path = .rel s →
      restore_version (some v) dest? watched storeOk = (.badRequest, [])) ∧
    (∀ p : NPath, dest?.getD v.original_path = .abs p →
      is_within_watched_paths p watched = false →
      restore_version (some v) dest? watched storeOk = (.forbidden, [])) ∧
    (∀ p : NPath, dest?.getD v.original_path = .abs p →
      is_within_watched_paths p watched = true →
      (restore_version (some v) dest? watched storeOk).2 =
        [.registerRestore p, .restoreBytes v.storage_path p]) := by
  refine ⟨?_, ?_, ?_⟩
  · intro s hs
    simp only [restore_version]
    rw [hs]
    by_cases hnil : s = []
    · subst hnil; simp
    · rw [if_neg (by simpa using hnil)]
  · intro p hp hfalse
    simp only [restore_version]
    rw [hp, if_neg (by simp)]
    simp [hfalse]
  · intro p hp htrue
    simp only [restore_version]
    rw [hp, if_neg (by simp)]
    simp [htrue]

/-- Endpoint witness data: one version row, one watched root `/w`. -/
def vW : VersionE := ⟨1, "h.gz".toList, .abs ⟨[], ["w".toList, "o".toList]⟩, 1⟩

/-- The single watched root of the endpoint witness. -/
def watchedW : List NPath := [⟨[], ["w".toList]⟩]

/-- An in-root destination for the endpoint witness. -/
def insideW : NPath := ⟨[], ["w".toList, "x".toList]⟩

/-- An out-of-root destination for the endpoint witness. -/
def outsideW : NPath := ⟨[], ["etc".toList, "hosts".toList]⟩

theorem restore_version_spec_witness :
    restore_version (some vW) (some (.rel "x".toList)) watchedW true =
      (.badRequest, []) ∧
    restore_version (some vW) (some (.abs outsideW)) watchedW true =
      (.forbidden, []) ∧
    (restore_version (some vW) (some (.abs insideW)) watchedW true).2 =
      [.registerRestore insideW, .restoreBytes vW.storage_path insideW] := by
  refine ⟨?_, ?_, ?_⟩
  · exact (restore_version_spec vW (some (.rel "x".toList)) watchedW true).1
      "x".toList (by decide)
  · exact (restore_version_spec vW (some (.abs outsideW)) watchedW true).2.1
      outsideW (by decide) (by decide)
  · exact (restore_version_spec vW (some (.abs insideW)) watchedW true).2.2
      insideW (by decide) (by decide)

/-- C7: get-or-create of a file record returns the existing record for the
path unchanged when there is one; otherwise, when some version with the
given content hash is linked to a record with the same basename whose old
path is gone from disk, that record is rebound to the new path (identity
recovery, all other rows untouched); otherwise a fresh record for the path
is appended. -/
theorem create_file_record_spec (db : DB) (p h : Str)
    (fs : Str → Option (List Nat)) :
    (∀ r0, get_file_record db p = some r0 →
      create_file_record db p (some h) fs = (r0, db)) ∧
    (get_file_record db p = none →
      ∀ v r0, db.versions.find? (recoveryPred db p h fs) = some v →
        recordOf db v = some r0 →
        (db.records.filter fun r => decide (r.id = r0.id)).length ≤ 1 →
        (create_file_record db p (some h) fs).1 = { r0 with current_path := p } ∧
        (create_file_record db p (some h) fs).2.records =
          db.records.map
            (fun r => if r.id = r0.id then { r with current_path := p } else r) ∧
        (create_file_record db p (some h) fs).2.versions = db.versions) ∧
    (get_file_record db p = none →
      db.versions.find? (recoveryPred db p h fs) = none →
      (create_file_record db p (some h) fs).1 = ⟨db.nextRecordId, p⟩ ∧
      (create_file_record db p (some h) fs).2.records =
        db.records ++ [⟨db.nextRecordId, p⟩] ∧
      (create_file_record db p (some h) fs).2.versions = db.versions) := by
  refine ⟨?_, ?_, ?_⟩
  · intro r0 hr
    simp [create_file_record, hr]
  · intro hget v r0 hfind hrec huniq
    have hcr : create_file_record db p (some h) fs =
        ({ r0 with current_path := p },
         { db with records := updateFirst (fun r => decide (r.id = r0.id)) (fun r => { r with current_path := p }) db.records }) := by
      simp only [create_file_record, hget, try_recover_file_record, hfind, hrec]
    refine ⟨by rw [hcr], ?_, by rw [hcr]⟩
    rw [hcr]
    show updateFirst (fun r => decide (r.id = r0.id))
        (fun r => { r with current_path := p }) db.records = _
    rw [updateFirst_eq_map db.records huniq]
    simp only [decide_eq_true_eq]
  · intro hget hfind
    have hcr : create_file_record db p (some h) fs =
        (⟨db.nextRecordId, p⟩,
         { db with records := db.records ++ [⟨db.nextRecordId, p⟩],
                   nextRecordId := db.nextRecordId + 1 }) := by
      simp only [create_file_record, hget, try_recover_file_record, hfind]
    exact ⟨by rw [hcr], by rw [hcr], by rw [hcr]⟩

/-- Identity-recovery witness database: record 5 at `/w/old/a.txt` with one
version of hash `HH`; the old path is gone from the (empty) disk. -/
def dbW : DB :=
  ⟨[⟨5, "/w/old/a.txt".toList⟩],
   [⟨1, some 5, "/w/old/a.txt".toList, "h.gz".toList, 1, "HH".toList, 3⟩],
   [], [], [], 6, 2⟩

theorem create_file_record_spec_witness :
    ((create_file_record dbW "/w/new/a.txt".toList (some "HH".toList)
        (fun _ => none)).1 = ⟨5, "/w/new/a.txt".toList⟩ ∧
     (create_file_record dbW "/w/new/a.txt".toList (some "HH".toList)
        (fun _ => none)).2.records =
       dbW.records.map (fun r =>
         if r.id = 5 then { r with current_path := "/w/new/a.txt".toList }
         else r)) ∧
    create_file_record dbW "/w/old/a.txt".toList (some "HH".toList)
      (fun _ => none) = (⟨5, "/w/old/a.txt".toList⟩, dbW) ∧
    (create_file_record dbW "/w/new/b.txt".toList (some "ZZ".toList)
      (fun _ => none)).2.records =
      dbW.records ++ [⟨6, "/w/new/b.txt".toList⟩] := by
  refine ⟨?_, ?_, ?_⟩
  · have hmain := (create_file_record_spec dbW "/w/new/a.txt".toList
      "HH".toList (fun _ => none)).2.1 (by decide)
      ⟨1, some 5, "/w/old/a.txt".toList, "h.gz".toList, 1, "HH".toList, 3⟩
      ⟨5, "/w/old/a.txt".toList⟩ (by decide) (by decide) (by decide)
    exact ⟨hmain.1, hmain.2.1⟩
  · exact (create_file_record_spec dbW "/w/old/a.txt".toList "HH".toList
      (fun _ => none)).1 ⟨5, "/w/old/a.txt".toList⟩ (by decide)
  · exact ((create_file_record_spec dbW "/w/new/b.txt".toList "ZZ".toList
      (fun _ => none)).2.2 (by decide) (by decide)).2.1

/-- C9: a modified/created event admitted to the backup path within the
2-second expiry window registered for the normalised path is dropped
without creating a version; the first event after expiry pops the entry
and is processed normally. -/
theorem restore_suppression_spec (cfg : StorageCfg) (norm : Str → Str)
    (pr : List (Str × ℤ)) (t now : ℤ) (db : DB) (st : Store)
    (fs : Str → Option (List Nat)) (p : Str) :
    (now ≤ t + 2 →
      backup_file cfg norm (register_restore_start norm pr t p) now db st fs p =
        ⟨register_restore_start norm pr t p, db, st, .suppressed⟩) ∧
    (∀ exp, List.lookup (norm p) pr = some exp → exp < now →
      backup_file cfg norm pr now db st fs p =
        backup_file_main cfg (pr.filter fun kv => kv.1 ≠ norm p) db st fs p ∧
      List.lookup (norm p)
        (backup_file cfg norm pr now db st fs p).pr = none) := by
  constructor
  · intro hnow
    have hl : List.lookup (norm p) (register_restore_start norm pr t p) =
        some (t + 2) := by
      simp [register_restore_start, List.lookup]
    simp only [backup_file, hl]
    rw [if_pos hnow]
  · intro exp hexp hlt
    have hne : ¬ now ≤ exp := by omega
    have heq : backup_file cfg norm pr now db st fs p =
        backup_file_main cfg (pr.filter fun kv => kv.1 ≠ norm p) db st fs p := by
      simp only [backup_file, hexp]
      rw [if_neg hne]
    refine ⟨heq, ?_⟩
    rw [heq, backup_file_main_pr]
    exact lookup_filter_ne (norm p) pr

/-- Empty database for the suppression witness. -/
def dbE : DB := ⟨[], [], [], [], [], 0, 0⟩

theorem restore_suppression_spec_witness :
    (backup_file mockCfg id (register_restore_start id [] 0 "/w/a.txt".toList) 2
      dbE ⟨[], []⟩ (fun _ => some [1]) "/w/a.txt".toList =
      ⟨register_restore_start id [] 0 "/w/a.txt".toList, dbE, ⟨[], []⟩,
        .suppressed⟩) ∧
    (backup_file mockCfg id [("/w/a.txt".toList, 0)] 3 dbE ⟨[], []⟩
      (fun _ => some [1]) "/w/a.txt".toList =
      backup_file_main mockCfg
        (([("/w/a.txt".toList, 0)] :
          List (Str × ℤ)).filter fun kv => kv.1 ≠ id "/w/a.txt".toList)
        dbE ⟨[], []⟩ (fun _ => some [1]) "/w/a.txt".toList ∧
     List.lookup (id "/w/a.txt".toList)
       (backup_file mockCfg id [("/w/a.txt".toList, 0)] 3 dbE ⟨[], []⟩
         (fun _ => some [1]) "/w/a.txt".toList).pr = none) := by
  constructor
  · exact (restore_suppression_spec mockCfg id [] 0 2 dbE ⟨[], []⟩
      (fun _ => some [1]) "/w/a.txt".toList).1 (by decide)
  · exact (restore_suppression_spec mockCfg id [("/w/a.txt".toList, 0)] 0 3
      dbE ⟨[], []⟩ (fun _ => some [1]) "/w/a.txt".toList).2 0 (by decide)
      (by decide)

/-- Database for the C5 evaluation: empty history, one *pending* backup
task for the excluded path. -/
def dbC5 : DB :=
  ⟨[], [], [⟨1, "/w/node_modules/a.txt".toList, "pending".toList, 0⟩],
   [], [], 0, 0⟩

/-- Disk for the C5 evaluation: only the excluded path exists. -/
def fsC5 : Str → Option (List Nat) :=
  fun q => if q = "/w/node_modules/a.txt".toList then some [104, 105] else none

/-- C5 (code bug in `monitor.py`): `_backup_file` never consults the
exclusion filter, the debounce or the pending-task check, and never
enqueues: on a path inside `node_modules` that already has a pending
`BackupTask` it still creates a `FileVersion` directly and leaves the task
table untouched. -/
theorem backup_file_ignores_admission_checks :
    is_excluded_path [] "/w/node_modules/a.txt".toList = true ∧
    has_pending_backup_task dbC5.tasks "/w/node_modules/a.txt".toList = true ∧
    (backup_file mockCfg id [] 0 dbC5 ⟨[], []⟩ fsC5
      "/w/node_modules/a.txt".toList).outcome = .backedUp ∧
    (backup_file mockCfg id [] 0 dbC5 ⟨[], []⟩ fsC5
      "/w/node_modules/a.txt".toList).db.versions.length = 1 ∧
    (backup_file mockCfg id [] 0 dbC5 ⟨[], []⟩ fsC5
      "/w/node_modules/a.txt".toList).db.tasks = dbC5.tasks := by
  decide

/-- Database for the C6 counterexample: one watched root and one historic
event under it. -/
def dbC6 : DB :=
  ⟨[], [], [], [⟨1, "/A/Test".toList, true⟩],
   [⟨1, "modified".toList, "/A/Test/f.txt".toList, none⟩], 0, 0⟩

/-- C6 counterexample: on a root rename the handler leaves the historical
`FileEvent` rows untouched — they are not the prefix-rewritten rows the
claim requires. -/
theorem root_on_moved_events_counterexample :
    (root_on_moved dbC6 "/A/Test".toList "/A/New".toList).1.events =
      dbC6.events ∧
    dbC6.events = [⟨1, "modified".toList, "/A/Test/f.txt".toList, none⟩] ∧
    (root_on_moved dbC6 "/A/Test".toList "/A/New".toList).1.events ≠
      (update_directory_events dbC6.events "/A/Test".toList "/A/New".toList).1 := by
  refine ⟨rfl, rfl, by decide⟩

/-- C6 (amended): on a root rename observed by the parent watch, the
handler rewrites the active `WatchedPath` row to the new path, rewrites
`current_path` of exactly the file records under the root on a segment
boundary, hands the monitor service a rename command (which drops the old
watch and resynchronises), and leaves versions and historical `FileEvent`
rows unchanged. -/
theorem root_on_moved_spec (db : DB) (root new_path : Str)
    (hu : (db.wps.filter fun w =>
      decide (w.path = root) && w.is_active).length ≤ 1) :
    (root_on_moved db root new_path).1.wps =
      db.wps.map (fun w =>
        if w.path = root ∧ w.is_active = true then { w with path := new_path }
        else w) ∧
    (∀ (i : Nat) (r : FileRecordR), db.records[i]? = some r →
      (¬ dirBoundary root <+: r.current_path →
        (root_on_moved db root new_path).1.records[i]? = some r) ∧
      (dirBoundary root <+: r.current_path →
        (root_on_moved db root new_path).1.records[i]? =
          some { r with current_path :=
            swap_path_prefix r.current_path root new_path })) ∧
    (root_on_moved db root new_path).1.events = db.events ∧
    (root_on_moved db root new_path).1.versions = db.versions ∧
    (root_on_moved db root new_path).2 = [.rename root new_path] := by
  refine ⟨?_, ?_, rfl, rfl, rfl⟩
  · show update_watched_path db.wps root new_path = _
    unfold update_watched_path
    rw [updateFirst_eq_map db.wps hu]
    refine List.map_congr_left ?_
    intro w _
    by_cases h1 : w.path = root ∧ w.is_active = true
    · have hb : (decide (w.path = root) && w.is_active) = true := by
        simp [h1.1, h1.2]
      rw [if_pos hb, if_pos h1]
    · have hb : ¬ ((decide (w.path = root) && w.is_active) = true) := by
        simp only [Bool.and_eq_true, decide_eq_true_eq]
        exact h1
      rw [if_neg hb, if_neg h1]
  · intro i r hir
    exact update_directory_records_getElem db.records root new_path i r hir

/-- Witness data for the amended C6 theorem. -/
def dbC6w : DB :=
  ⟨[⟨1, "/A/Test/f.txt".toList⟩, ⟨2, "/A/Testing/g.txt".toList⟩], [], [],
   [⟨1, "/A/Test".toList, true⟩],
   [⟨1, "modified".toList, "/A/Test/f.txt".toList, none⟩], 3, 0⟩

theorem root_on_moved_spec_witness :
    (root_on_moved dbC6w "/A/Test".toList "/A/New".toList).1.wps =
      dbC6w.wps.map (fun w =>
        if w.path = "/A/Test".toList ∧ w.is_active = true then
          { w with path := "/A/New".toList }
        else w) ∧
    (root_on_moved dbC6w "/A/Test".toList "/A/New".toList).1.records[1]? =
      some ⟨2, "/A/Testing/g.txt".toList⟩ ∧
    (root_on_moved dbC6w "/A/Test".toList "/A/New".toList).1.events =
      dbC6w.events ∧
    (root_on_moved dbC6w "/A/Test".toList "/A/New".toList).2 =
      [.rename "/A/Test".toList "/A/New".toList] := by
  have h := root_on_moved_spec dbC6w "/A/Test".toList "/A/New".toList (by decide)
  refine ⟨h.1, ?_, h.2.2.1, h.2.2.2.2⟩
  exact (h.2.1 1 ⟨2, "/A/Testing/g.txt".toList⟩ (by decide)).1 (by decide)

/-! ## Storage lemmas -/

theorem writeChunks_files (cfg : StorageCfg) :
    ∀ (cs : List (List Nat)) (st : Store),
      (writeChunks cfg st cs).files = st.files := by
  intro cs
  induction cs with
  | nil => intro st; rfl
  | cons c rest ih =>
    intro st
    rw [writeChunks, ih]
    unfold writeChunk1
    dsimp only
    split <;> rfl

theorem writeChunk1_chunks_extension (cfg : StorageCfg) (st : Store)
    (c : List Nat) :
    ∃ extra, (writeChunk1 cfg st c).chunks = st.chunks ++ extra := by
  unfold writeChunk1
  dsimp only
  split
  · exact ⟨[], by simp⟩
  · exact ⟨[(cfg.sha c ++ chunkExt, c)], rfl⟩

theorem writeChunks_chunks_extension (cfg : StorageCfg) :
    ∀ (cs : List (List Nat)) (st : Store),
      ∃ extra, (writeChunks cfg st cs).chunks = st.chunks ++ extra := by
  intro cs
  induction cs with
  | nil => intro st; exact ⟨[], by simp [writeChunks]⟩
  | cons c rest ih =>
    intro st
    obtain ⟨e1, he1⟩ := writeChunk1_chunks_extension cfg st c
    obtain ⟨e2, he2⟩ := ih (writeChunk1 cfg st c)
    exact ⟨e1 ++ e2, by rw [writeChunks, he2, he1, List.append_assoc]⟩

theorem writeChunks_find_mono (cfg : StorageCfg) {n : Str} {v : List Nat}
    (cs : List (List Nat)) (st : Store)
    (h : assocFind n st.chunks = some v) :
    assocFind n (writeChunks cfg st cs).chunks = some v := by
  obtain ⟨extra, he⟩ := writeChunks_chunks_extension cfg cs st
  rw [he]
  exact assocFind_append_some h

theorem writeChunks_isSome_mono (cfg : StorageCfg) {n : Str}
    (cs : List (List Nat)) (st : Store)
    (h : (assocFind n st.chunks).isSome = true) :
    (assocFind n (writeChunks cfg st cs).chunks).isSome = true := by
  obtain ⟨v, hv⟩ := Option.isSome_iff_exists.mp h
  rw [Option.isSome_iff_exists]
  exact ⟨v, writeChunks_find_mono cfg cs st hv⟩

theorem writeChunks_self_isSome (cfg : StorageCfg) :
    ∀ (cs : List (List Nat)) (st : Store), ∀ c ∈ cs,
      (assocFind (cfg.sha c ++ chunkExt)
        (writeChunks cfg st cs).chunks).isSome = true := by
  intro cs
  induction cs with
  | nil => intro st c hc; cases hc
  | cons c0 rest ih =>
    intro st c hc
    have hstep : (assocFind (cfg.sha c0 ++ chunkExt)
        (writeChunk1 cfg st c0).chunks).isSome = true := by
      unfold writeChunk1
      dsimp only
      split
      · assumption
      · rename_i hnot
        have hnone : assocFind (cfg.sha c0 ++ chunkExt) st.chunks = none := by
          cases hx : assocFind (cfg.sha c0 ++ chunkExt) st.chunks with
          | none => rfl
          | some v => rw [hx] at hnot; simp at hnot
        rw [assocFind_append_none hnone]
        simp [assocFind]
    cases hc with
    | head =>
      rw [writeChunks]
      exact writeChunks_isSome_mono cfg rest (writeChunk1 cfg st c0) hstep
    | tail _ hrest =>
      rw [writeChunks]
      exact ih (writeChunk1 cfg st c0) c hrest

theorem writeChunks_noop (cfg : StorageCfg) :
    ∀ (cs : List (List Nat)) (st : Store),
      (∀ c ∈ cs, (assocFind (cfg.sha c ++ chunkExt) st.chunks).isSome = true) →
      writeChunks cfg st cs = st := by
  intro cs
  induction cs with
  | nil => intro st _; rfl
  | cons c0 rest ih =>
    intro st hall
    have h1 : writeChunk1 cfg st c0 = st := by
      unfold writeChunk1
      dsimp only
      rw [if_pos (hall c0 (List.mem_cons_self c0 rest))]
    rw [writeChunks, h1]
    exact ih st fun c hc => hall c (List.mem_cons_of_mem c0 hc)

theorem save_with_known_hash_fresh (cfg : StorageCfg) (st : Store)
    (data : List Nat) (h : Str)
    (hfresh : assocFind (h ++ gzExt) st.files = none) :
    save_with_known_hash cfg st data h =
      (⟨h ++ gzExt, h, data.length, h ++ gzExt⟩,
       { st with files := st.files ++ [(h ++ gzExt, .data (cfg.compress data))] }) := by
  unfold save_with_known_hash
  dsimp only
  rw [hfresh]

theorem save_with_known_hash_hit (cfg : StorageCfg) (st : Store)
    (data : List Nat) (h : Str) (f : StoredFile)
    (hf : assocFind (h ++ gzExt) st.files = some f) :
    save_with_known_hash cfg st data h =
      (⟨h ++ gzExt, h, data.length, h ++ gzExt⟩, st) := by
  unfold save_with_known_hash
  dsimp only
  rw [hf]

theorem save_with_unknown_hash_fresh (cfg : StorageCfg) (st : Store)
    (data : List Nat)
    (hfresh : assocFind (cfg.sha data ++ gzExt) st.files = none) :
    save_with_unknown_hash cfg st data =
      (⟨cfg.sha data ++ gzExt, cfg.sha data, data.length, cfg.sha data ++ gzExt⟩,
       { st with files :=
          st.files ++ [(cfg.sha data ++ gzExt, .data (cfg.compress data))] }) := by
  unfold save_with_unknown_hash
  dsimp only
  rw [hfresh]

theorem save_with_unknown_hash_hit (cfg : StorageCfg) (st : Store)
    (data : List Nat) (f : StoredFile)
    (hf : assocFind (cfg.sha data ++ gzExt) st.files = some f) :
    save_with_unknown_hash cfg st data =
      (⟨cfg.sha data ++ gzExt, cfg.sha data, data.length,
        cfg.sha data ++ gzExt⟩, st) := by
  unfold save_with_unknown_hash
  dsimp only
  rw [hf]

theorem save_chunked_core_fresh (cfg : StorageCfg) (st : Store)
    (data : List Nat)
    (hfresh : assocFind (cfg.sha data ++ MANIFEST_EXT) st.files = none) :
    save_chunked_core cfg st data =
      (⟨cfg.sha data ++ MANIFEST_EXT, cfg.sha data, data.length,
        cfg.sha data ++ MANIFEST_EXT⟩,
       { files := st.files ++
          [(cfg.sha data ++ MANIFEST_EXT,
            .manifest ⟨cfg.sha data, data.length, cfg.chunkSize,
              (chunksOf cfg.chunkSize data).map
                (fun c => ⟨cfg.sha c, c.length⟩)⟩)],
         chunks := (writeChunks cfg st (chunksOf cfg.chunkSize data)).chunks }) := by
  unfold save_chunked_core
  dsimp only
  rw [writeChunks_files cfg (chunksOf cfg.chunkSize data) st, hfresh]
  rfl

theorem save_chunked_core_hit (cfg : StorageCfg) (st : Store)
    (data : List Nat) (f : StoredFile)
    (hf : assocFind (cfg.sha data ++ MANIFEST_EXT) st.files = some f) :
    save_chunked_core cfg st data =
      (⟨cfg.sha data ++ MANIFEST_EXT, cfg.sha data, data.length,
        cfg.sha data ++ MANIFEST_EXT⟩,
       writeChunks cfg st (chunksOf cfg.chunkSize data)) := by
  unfold save_chunked_core
  dsimp only
  rw [writeChunks_files cfg (chunksOf cfg.chunkSize data) st, hf]
  rfl

theorem save_chunked_file_hit_known (cfg : StorageCfg) (st : Store)
    (data : List Nat) (h : Str) (f : StoredFile)
    (hf : assocFind (h ++ MANIFEST_EXT) st.files = some f) :
    save_chunked_file cfg st data (some h) =
      (⟨h ++ MANIFEST_EXT, h, data.length, h ++ MANIFEST_EXT⟩, st) := by
  unfold save_chunked_file
  dsimp only
  rw [hf]
  rfl

theorem save_chunked_file_fresh_known (cfg : StorageCfg) (st : Store)
    (data : List Nat) (h : Str)
    (hf : assocFind (h ++ MANIFEST_EXT) st.files = none) :
    save_chunked_file cfg st data (some h) = save_chunked_core cfg st data := by
  unfold save_chunked_file
  dsimp only
  rw [hf]
  rfl

/-- C8: two successive `save_file_version` calls on the same content
return the same storage path, the second call is a dedup hit that changes
nothing on disk, and afterwards exactly one on-disk object carries that
content's name; this holds for the known-hash, unknown-hash and chunked
write paths. -/
theorem save_dedup_spec (cfg : StorageCfg) (st : Store) (data : List Nat) :
    (data.length < cfg.chunkedMin →
      assocFind (cfg.sha data ++ gzExt) st.files = none →
      ∀ k, (k = none ∨ k = some (cfg.sha data)) →
      (save_file_version cfg st (some data) k).1 =
        (save_file_version cfg (save_file_version cfg st (some data) k).2
          (some data) k).1 ∧
      (save_file_version cfg (save_file_version cfg st (some data) k).2
          (some data) k).2 = (save_file_version cfg st (some data) k).2 ∧
      ((save_file_version cfg st (some data) k).2.files.countP
        (fun kv => decide (kv.1 = cfg.sha data ++ gzExt))) = 1) ∧
    (cfg.chunkedMin ≤ data.length →
      assocFind (cfg.sha data ++ MANIFEST_EXT) st.files = none →
      ∀ k, (k = none ∨ k = some (cfg.sha data)) →
      (save_file_version cfg st (some data) k).1 =
        (save_file_version cfg (save_file_version cfg st (some data) k).2
          (some data) k).1 ∧
      (save_file_version cfg (save_file_version cfg st (some data) k).2
          (some data) k).2 = (save_file_version cfg st (some data) k).2 ∧
      ((save_file_version cfg st (some data) k).2.files.countP
        (fun kv => decide (kv.1 = cfg.sha data ++ MANIFEST_EXT))) = 1) := by
  constructor
  · intro hsize hfresh k hk
    have hnotc : ¬ cfg.chunkedMin ≤ data.length := Nat.not_le.mpr hsize
    have hfind1 : assocFind (cfg.sha data ++ gzExt)
        (st.files ++ [(cfg.sha data ++ gzExt, StoredFile.data (cfg.compress data))]) =
        some (.data (cfg.compress data)) := by
      rw [assocFind_append_none hfresh]
      simp [assocFind]
    have hcount : (st.files ++
        [(cfg.sha data ++ gzExt, StoredFile.data (cfg.compress data))]).countP
        (fun kv => decide (kv.1 = cfg.sha data ++ gzExt)) = 1 := by
      rw [List.countP_append, assocFind_countP_zero hfresh]
      simp
    rcases hk with rfl | rfl
    · have h1 : save_file_version cfg st (some data) none =
          (some ⟨cfg.sha data ++ gzExt, cfg.sha data, data.length,
            cfg.sha data ++ gzExt⟩,
           { st with files := st.files ++
              [(cfg.sha data ++ gzExt, .data (cfg.compress data))] }) := by
        simp only [save_file_version]
        rw [if_neg hnotc, save_with_unknown_hash_fresh cfg st data hfresh]
      have h2 : save_file_version cfg
          { st with files := st.files ++
            [(cfg.sha data ++ gzExt, .data (cfg.compress data))] }
          (some data) none =
          (some ⟨cfg.sha data ++ gzExt, cfg.sha data, data.length,
            cfg.sha data ++ gzExt⟩,
           { st with files := st.files ++
              [(cfg.sha data ++ gzExt, .data (cfg.compress data))] }) := by
        simp only [save_file_version]
        rw [if_neg hnotc, save_with_unknown_hash_hit cfg _ data _ hfind1]
      rw [h1, h2]
      exact ⟨rfl, rfl, hcount⟩
    · have h1 : save_file_version cfg st (some data) (some (cfg.sha data)) =
          (some ⟨cfg.sha data ++ gzExt, cfg.sha data, data.length,
            cfg.sha data ++ gzExt⟩,
           { st with files := st.files ++
              [(cfg.sha data ++ gzExt, .data (cfg.compress data))] }) := by
        simp only [save_file_version]
        rw [if_neg hnotc, save_with_known_hash_fresh cfg st data _ hfresh]
      have h2 : save_file_version cfg
          { st with files := st.files ++
            [(cfg.sha data ++ gzExt, .data (cfg.compress data))] }
          (some data) (some (cfg.sha data)) =
          (some ⟨cfg.sha data ++ gzExt, cfg.sha data, data.length,
            cfg.sha data ++ gzExt⟩,
           { st with files := st.files ++
              [(cfg.sha data ++ gzExt, .data (cfg.compress data))] }) := by
        simp only [save_file_version]
        rw [if_neg hnotc, save_with_known_hash_hit cfg _ data _ _ hfind1]
      rw [h1, h2]
      exact ⟨rfl, rfl, hcount⟩
  · intro hsize hfresh k hk
    set cs := chunksOf cfg.chunkSize data with hcs
    set M : Manifest := ⟨cfg.sha data, data.length, cfg.chunkSize,
      cs.map (fun c => ⟨cfg.sha c, c.length⟩)⟩ with hM
    set stW : Store :=
      { files := st.files ++ [(cfg.sha data ++ MANIFEST_EXT, .manifest M)],
        chunks := (writeChunks cfg st cs).chunks } with hstW
    have hfind1 : assocFind (cfg.sha data ++ MANIFEST_EXT) stW.files =
        some (.manifest M) := by
      rw [hstW]
      show assocFind _ (st.files ++ _) = _
      rw [assocFind_append_none hfresh]
      simp [assocFind]
    have hcore1 : save_chunked_core cfg st data =
        (⟨cfg.sha data ++ MANIFEST_EXT, cfg.sha data, data.length,
          cfg.sha data ++ MANIFEST_EXT⟩, stW) :=
      save_chunked_core_fresh cfg st data hfresh
    have hnoop : writeChunks cfg stW cs = stW := by
      refine writeChunks_noop cfg cs stW ?_
      intro c hc
      show (assocFind (cfg.sha c ++ chunkExt)
        (writeChunks cfg st cs).chunks).isSome = true
      exact writeChunks_self_isSome cfg cs st c hc
    have hcore2 : save_chunked_core cfg stW data =
        (⟨cfg.sha data ++ MANIFEST_EXT, cfg.sha data, data.length,
          cfg.sha data ++ MANIFEST_EXT⟩, stW) := by
      have := save_chunked_core_hit cfg stW data (.manifest M) hfind1
      rw [hnoop] at this
      exact this
    have hcount : stW.files.countP
        (fun kv => decide (kv.1 = cfg.sha data ++ MANIFEST_EXT)) = 1 := by
      rw [hstW]
      show (st.files ++ _).countP _ = 1
      rw [List.countP_append, assocFind_countP_zero hfresh]
      simp
    rcases hk with rfl | rfl
    · have h1 : save_file_version cfg st (some data) none =
          (some ⟨cfg.sha data ++ MANIFEST_EXT, cfg.sha data, data.length,
            cfg.sha data ++ MANIFEST_EXT⟩, stW) := by
        simp only [save_file_version, save_chunked_file]
        rw [if_pos hsize, hcore1]
      have h2 : save_file_version cfg stW (some data) none =
          (some ⟨cfg.sha data ++ MANIFEST_EXT, cfg.sha data, data.length,
            cfg.sha data ++ MANIFEST_EXT⟩, stW) := by
        simp only [save_file_version, save_chunked_file]
        rw [if_pos hsize, hcore2]
      rw [h1, h2]
      exact ⟨rfl, rfl, hcount⟩
    · have h1 : save_file_version cfg st (some data) (some (cfg.sha data)) =
          (some ⟨cfg.sha data ++ MANIFEST_EXT, cfg.sha data, data.length,
            cfg.sha data ++ MANIFEST_EXT⟩, stW) := by
        simp only [save_file_version]
        rw [if_pos hsize, save_chunked_file_fresh_known cfg st data _ hfresh,
          hcore1]
      have h2 : save_file_version cfg stW (some data) (some (cfg.sha data)) =
          (some ⟨cfg.sha data ++ MANIFEST_EXT, cfg.sha data, data.length,
            cfg.sha data ++ MANIFEST_EXT⟩, stW) := by
        simp only [save_file_version]
        rw [if_pos hsize,
          save_chunked_file_hit_known cfg stW data _ _ hfind1]
      rw [h1, h2]
      exact ⟨rfl, rfl, hcount⟩

theorem save_dedup_spec_witness :
    ((save_file_version mockCfg ⟨[], []⟩ (some [9, 9, 9]) none).1 =
      (save_file_version mockCfg
        (save_file_version mockCfg ⟨[], []⟩ (some [9, 9, 9]) none).2
        (some [9, 9, 9]) none).1 ∧
     (save_file_version mockCfg
        (save_file_version mockCfg ⟨[], []⟩ (some [9, 9, 9]) none).2
        (some [9, 9, 9]) none).2 =
      (save_file_version mockCfg ⟨[], []⟩ (some [9, 9, 9]) none).2 ∧
     ((save_file_version mockCfg ⟨[], []⟩ (some [9, 9, 9]) none).2.files.countP
       (fun kv => decide (kv.1 = mockCfg.sha [9, 9, 9] ++ gzExt))) = 1) ∧
    ((save_file_version mockCfg ⟨[], []⟩ (some [9, 9, 9, 9, 9]) none).1 =
      (save_file_version mockCfg
        (save_file_version mockCfg ⟨[], []⟩ (some [9, 9, 9, 9, 9]) none).2
        (some [9, 9, 9, 9, 9]) none).1 ∧
     (save_file_version mockCfg
        (save_file_version mockCfg ⟨[], []⟩ (some [9, 9, 9, 9, 9]) none).2
        (some [9, 9, 9, 9, 9]) none).2 =
      (save_file_version mockCfg ⟨[], []⟩ (some [9, 9, 9, 9, 9]) none).2 ∧
     ((save_file_version mockCfg ⟨[], []⟩
        (some [9, 9, 9, 9, 9]) none).2.files.countP
       (fun kv => decide (kv.1 = mockCfg.sha [9, 9, 9, 9, 9] ++
         MANIFEST_EXT))) = 1) := by
  constructor
  · exact (save_dedup_spec mockCfg ⟨[], []⟩ [9, 9, 9]).1 (by decide) (by decide)
      none (Or.inl rfl)
  · exact (save_dedup_spec mockCfg ⟨[], []⟩ [9, 9, 9, 9, 9]).2 (by decide)
      (by decide) none (Or.inl rfl)

theorem chunksOfAux_join (k : Nat) (hk : k ≠ 0) :
    ∀ (n : Nat) (l : List α), l.length ≤ n → (chunksOfAux k n l).flatten = l := by
  intro n
  induction n with
  | zero =>
    intro l hl
    have hnil : l = [] := List.length_eq_zero.mp (Nat.le_zero.mp hl)
    subst hnil
    rfl
  | succ n ih =>
    intro l hl
    cases l with
    | nil => rfl
    | cons a rest =>
      show (chunksOfAux k (n + 1) (a :: rest)).flatten = a :: rest
      unfold chunksOfAux
      rw [if_neg hk, List.flatten_cons]
      rw [ih ((a :: rest).drop k) (by
        simp only [List.length_drop, List.length_cons]
        have hk1 : 1 ≤ k := Nat.one_le_iff_ne_zero.mpr hk
        simp only [List.length_cons] at hl
        omega)]
      exact List.take_append_drop k (a :: rest)

theorem chunksOf_join (k : Nat) (hk : k ≠ 0) (l : List α) :
    (chunksOf k l).flatten = l :=
  chunksOfAux_join k hk l.length l le_rfl

theorem assocFind_singleton {n m : Str} {v : β} :
    assocFind n [(m, v)] = if m = n then some v else none := rfl

theorem writeChunks_find_self (cfg : StorageCfg) :
    ∀ (cs : List (List Nat)) (st : Store),
      (∀ c ∈ cs, ∀ b, assocFind (cfg.sha c ++ chunkExt) st.chunks = some b →
        b = c) →
      (∀ c ∈ cs, ∀ c' ∈ cs, cfg.sha c = cfg.sha c' → c = c') →
      ∀ c ∈ cs, assocFind (cfg.sha c ++ chunkExt)
        (writeChunks cfg st cs).chunks = some c := by
  intro cs
  induction cs with
  | nil => intro st _ _ c hc; cases hc
  | cons c0 rest ih =>
    intro st hchunk hinj c hc
    have hfind0 : assocFind (cfg.sha c0 ++ chunkExt)
        (writeChunk1 cfg st c0).chunks = some c0 := by
      unfold writeChunk1
      dsimp only
      cases hx : assocFind (cfg.sha c0 ++ chunkExt) st.chunks with
      | some b =>
        have hb : b = c0 := hchunk c0 (List.mem_cons_self c0 rest) b hx
        rw [if_pos (show (some b).isSome = true from rfl)]
        simp [hx, hb]
      | none =>
        rw [if_neg (by simp)]
        show assocFind _ (st.chunks ++ _) = _
        rw [assocFind_append_none hx, assocFind_singleton, if_pos rfl]
    have hchunk1 : ∀ c' ∈ c0 :: rest, ∀ b,
        assocFind (cfg.sha c' ++ chunkExt) (writeChunk1 cfg st c0).chunks =
          some b → b = c' := by
      intro c' hc' b hfind
      unfold writeChunk1 at hfind
      dsimp only at hfind
      by_cases hx : (assocFind (cfg.sha c0 ++ chunkExt) st.chunks).isSome = true
      · rw [if_pos hx] at hfind
        exact hchunk c' hc' b hfind
      · rw [if_neg hx] at hfind
        cases hy : assocFind (cfg.sha c' ++ chunkExt) st.chunks with
        | some b' =>
          rw [assocFind_append_some hy] at hfind
          have hb : b' = b := Option.some.inj hfind
          rw [← hb]
          exact hchunk c' hc' b' hy
        | none =>
          rw [assocFind_append_none hy, assocFind_singleton] at hfind
          by_cases hz : cfg.sha c0 ++ chunkExt = cfg.sha c' ++ chunkExt
          · rw [if_pos hz] at hfind
            have hsha : cfg.sha c0 = cfg.sha c' := by
              have := hz
              exact List.append_cancel_right this
            have hcc : c0 = c' :=
              hinj c0 (List.mem_cons_self c0 rest) c' hc' hsha
            rw [← Option.some.inj hfind, hcc]
          · rw [if_neg hz] at hfind
            exact Option.noConfusion hfind
    cases hc with
    | head =>
      rw [writeChunks]
      exact writeChunks_find_mono cfg rest (writeChunk1 cfg st c0) hfind0
    | tail _ hrest =>
      rw [writeChunks]
      exact ih (writeChunk1 cfg st c0)
        (fun c' hc' => hchunk1 c' (List.mem_cons_of_mem c0 hc'))
        (fun c' h' c'' h'' => hinj c' (List.mem_cons_of_mem c0 h')
          c'' (List.mem_cons_of_mem c0 h''))
        c hrest

theorem readChunks_of_find (cfg : StorageCfg) (st : Store) :
    ∀ cs : List (List Nat),
      (∀ c ∈ cs, assocFind (cfg.sha c ++ chunkExt) st.chunks = some c) →
      readChunks st (cs.map fun c => (⟨cfg.sha c, c.length⟩ : ChunkRef)) =
        some cs.flatten := by
  intro cs h
  induction cs with
  | nil => rfl
  | cons c rest ih =>
    rw [List.map_cons]
    simp only [readChunks]
    rw [h c (List.mem_cons_self c rest)]
    rw [ih (fun c' hc' => h c' (List.mem_cons_of_mem c hc'))]
    simp [List.flatten_cons]

theorem readChunks_extend {st st' : Store}
    (hext : ∃ extra, st'.chunks = st.chunks ++ extra) :
    ∀ (cs : List ChunkRef) (d : List Nat), readChunks st cs = some d →
      readChunks st' cs = some d := by
  obtain ⟨extra, he⟩ := hext
  intro cs
  induction cs with
  | nil =>
    intro d h
    simpa [readChunks] using h
  | cons cr rest ih =>
    intro d h
    simp only [readChunks] at h ⊢
    cases hx : assocFind (cr.hash ++ chunkExt) st.chunks with
    | none => rw [hx] at h; exact absurd h (by simp)
    | some b =>
      rw [hx] at h
      rw [he, assocFind_append_some hx]
      cases hr : readChunks st rest with
      | none => rw [hr] at h; exact absurd h (by simp)
      | some drest =>
        rw [hr] at h
        rw [ih drest hr]
        exact h

theorem restore_manifest_file (cfg : StorageCfg) (st : Store) (h : Str)
    (m : Manifest)
    (hf : assocFind (h ++ MANIFEST_EXT) st.files = some (.manifest m)) :
    restore_file_version cfg st (h ++ MANIFEST_EXT) = readChunks st m.chunks := by
  unfold restore_file_version
  rw [hf]
  dsimp only
  rw [if_pos (List.suffix_append h MANIFEST_EXT)]

theorem restore_gz_data (cfg : StorageCfg) (st : Store) (h : Str)
    (b : List Nat)
    (hf : assocFind (h ++ gzExt) st.files = some (.data b)) :
    restore_file_version cfg st (h ++ gzExt) = some (cfg.decompress b) := by
  unfold restore_file_version
  rw [hf]
  dsimp only
  rw [if_neg (not_manifest_suffix_gz h), if_pos (List.suffix_append h gzExt)]

theorem pair_some_extract {m₀ meta : SaveMeta} {st₀ st' : Store}
    (h : ((some m₀ : Option SaveMeta), st₀) = (some meta, st')) :
    meta = m₀ ∧ st' = st₀ := by
  have h1 := congrArg Prod.fst h
  have h2 := congrArg Prod.snd h
  simp only at h1 h2
  exact ⟨(Option.some.inj h1).symm, h2.symm⟩

/-- C1: saving an existing source file (with the correct hash when one is
supplied) and restoring the returned storage path reproduces exactly the
original bytes, on the small-known, small-unknown and chunked write paths.
The hypotheses are the facts the code relies on: the gzip codec is a left
inverse, CAS objects already stored under this content's names decode to
this content (no hash collision in the store), and SHA-256 does not
collide on the chunks of this content. -/
theorem cas_roundtrip_spec (cfg : StorageCfg) (st : Store) (data : List Nat)
    (hcodec : ∀ b, cfg.decompress (cfg.compress b) = b)
    (hgz : ∀ f, assocFind (cfg.sha data ++ gzExt) st.files = some f →
      ∃ b, f = .data b ∧ cfg.decompress b = data)
    (hman : ∀ f, assocFind (cfg.sha data ++ MANIFEST_EXT) st.files = some f →
      ∃ m, f = .manifest m ∧ readChunks st m.chunks = some data)
    (hchunk : ∀ c ∈ chunksOf cfg.chunkSize data, ∀ b,
      assocFind (cfg.sha c ++ chunkExt) st.chunks = some b → b = c)
    (hinj : ∀ c ∈ chunksOf cfg.chunkSize data,
      ∀ c' ∈ chunksOf cfg.chunkSize data, cfg.sha c = cfg.sha c' → c = c')
    (hk : cfg.chunkSize ≠ 0) :
    (data.length < cfg.chunkedMin →
      ∀ meta st', save_file_version cfg st (some data) (some (cfg.sha data)) =
        (some meta, st') →
      restore_file_version cfg st' meta.storage_path = some data) ∧
    (data.length < cfg.chunkedMin →
      ∀ meta st', save_file_version cfg st (some data) none =
        (some meta, st') →
      restore_file_version cfg st' meta.storage_path = some data) ∧
    (cfg.chunkedMin ≤ data.length →
      ∀ k, (k = none ∨ k = some (cfg.sha data)) →
      ∀ meta st', save_file_version cfg st (some data) k = (some meta, st') →
      restore_file_version cfg st' meta.storage_path = some data) := by
  have hfreshG : assocFind (cfg.sha data ++ gzExt) st.files = none →
      assocFind (cfg.sha data ++ gzExt)
        (st.files ++ [(cfg.sha data ++ gzExt,
          StoredFile.data (cfg.compress data))]) =
        some (.data (cfg.compress data)) := by
    intro hy
    rw [assocFind_append_none hy, assocFind_singleton, if_pos rfl]
  refine ⟨?_, ?_, ?_⟩
  · -- small, known hash
    intro hsize meta st' hsave
    have hnotc : ¬ cfg.chunkedMin ≤ data.length := Nat.not_le.mpr hsize
    cases hx : assocFind (cfg.sha data ++ gzExt) st.files with
    | some f =>
      have h1 : save_file_version cfg st (some data) (some (cfg.sha data)) =
          (some ⟨cfg.sha data ++ gzExt, cfg.sha data, data.length,
            cfg.sha data ++ gzExt⟩, st) := by
        simp only [save_file_version]
        rw [if_neg hnotc, save_with_known_hash_hit cfg st data (cfg.sha data) f hx]
      rw [h1] at hsave
      obtain ⟨hm, hs⟩ := pair_some_extract hsave
      rw [hm, hs]
      obtain ⟨b, hb, hbd⟩ := hgz f hx
      subst hb
      show restore_file_version cfg st (cfg.sha data ++ gzExt) = some data
      rw [restore_gz_data cfg st (cfg.sha data) b hx, hbd]
    | none =>
      have h1 : save_file_version cfg st (some data) (some (cfg.sha data)) =
          (some ⟨cfg.sha data ++ gzExt, cfg.sha data, data.length,
            cfg.sha data ++ gzExt⟩,
           { st with files := st.files ++
              [(cfg.sha data ++ gzExt, .data (cfg.compress data))] }) := by
        simp only [save_file_version]
        rw [if_neg hnotc, save_with_known_hash_fresh cfg st data _ hx]
      rw [h1] at hsave
      obtain ⟨hm, hs⟩ := pair_some_extract hsave
      rw [hm, hs]
      show restore_file_version cfg _ (cfg.sha data ++ gzExt) = some data
      rw [restore_gz_data cfg _ (cfg.sha data) (cfg.compress data)
        (hfreshG hx), hcodec]
  · -- small, unknown hash
    intro hsize meta st' hsave
    have hnotc : ¬ cfg.chunkedMin ≤ data.length := Nat.not_le.mpr hsize
    cases hx : assocFind (cfg.sha data ++ gzExt) st.files with
    | some f =>
      have h1 : save_file_version cfg st (some data) none =
          (some ⟨cfg.sha data ++ gzExt, cfg.sha data, data.length,
            cfg.sha data ++ gzExt⟩, st) := by
        simp only [save_file_version]
        rw [if_neg hnotc, save_with_unknown_hash_hit cfg st data f hx]
      rw [h1] at hsave
      obtain ⟨hm, hs⟩ := pair_some_extract hsave
      rw [hm, hs]
      obtain ⟨b, hb, hbd⟩ := hgz f hx
      subst hb
      show restore_file_version cfg st (cfg.sha data ++ gzExt) = some data
      rw [restore_gz_data cfg st (cfg.sha data) b hx, hbd]
    | none =>
      have h1 : save_file_version cfg st (some data) none =
          (some ⟨cfg.sha data ++ gzExt, cfg.sha data, data.length,
            cfg.sha data ++ gzExt⟩,
           { st with files := st.files ++
              [(cfg.sha data ++ gzExt, .data (cfg.compress data))] }) := by
        simp only [save_file_version]
        rw [if_neg hnotc, save_with_unknown_hash_fresh cfg st data hx]
      rw [h1] at hsave
      obtain ⟨hm, hs⟩ := pair_some_extract hsave
      rw [hm, hs]
      show restore_file_version cfg _ (cfg.sha data ++ gzExt) = some data
      rw [restore_gz_data cfg _ (cfg.sha data) (cfg.compress data)
        (hfreshG hx), hcodec]
  · -- chunked
    intro hsizeg k hkk meta st' hsave
    cases hx : assocFind (cfg.sha data ++ MANIFEST_EXT) st.files with
    | some f =>
      obtain ⟨m, hf, hread⟩ := hman f hx
      subst hf
      rcases hkk with rfl | rfl
      · -- k = none: the core path re-walks the chunks, keeps the manifest
        have h1 : save_file_version cfg st (some data) none =
            (some ⟨cfg.sha data ++ MANIFEST_EXT, cfg.sha data, data.length,
              cfg.sha data ++ MANIFEST_EXT⟩,
             writeChunks cfg st (chunksOf cfg.chunkSize data)) := by
          simp only [save_file_version, save_chunked_file]
          rw [if_pos hsizeg, save_chunked_core_hit cfg st data _ hx]
        rw [h1] at hsave
        obtain ⟨hm, hs⟩ := pair_some_extract hsave
        rw [hm, hs]
        show restore_file_version cfg _ (cfg.sha data ++ MANIFEST_EXT) =
          some data
        have hfindW : assocFind (cfg.sha data ++ MANIFEST_EXT)
            (writeChunks cfg st (chunksOf cfg.chunkSize data)).files =
            some (.manifest m) := by
          rw [writeChunks_files]
          exact hx
        rw [restore_manifest_file cfg _ (cfg.sha data) m hfindW]
        exact readChunks_extend
          (writeChunks_chunks_extension cfg (chunksOf cfg.chunkSize data) st)
          m.chunks data hread
      · -- k = known hash: dedup hit, store untouched
        have h1 : save_file_version cfg st (some data) (some (cfg.sha data)) =
            (some ⟨cfg.sha data ++ MANIFEST_EXT, cfg.sha data, data.length,
              cfg.sha data ++ MANIFEST_EXT⟩, st) := by
          simp only [save_file_version]
          rw [if_pos hsizeg, save_chunked_file_hit_known cfg st data _ _ hx]
        rw [h1] at hsave
        obtain ⟨hm, hs⟩ := pair_some_extract hsave
        rw [hm, hs]
        show restore_file_version cfg st (cfg.sha data ++ MANIFEST_EXT) =
          some data
        rw [restore_manifest_file cfg st (cfg.sha data) m hx]
        exact hread
    | none =>
      -- fresh manifest: chunks and manifest are written
      have hcore : save_chunked_core cfg st data =
          (⟨cfg.sha data ++ MANIFEST_EXT, cfg.sha data, data.length,
            cfg.sha data ++ MANIFEST_EXT⟩,
           { files := st.files ++
              [(cfg.sha data ++ MANIFEST_EXT,
                .manifest ⟨cfg.sha data, data.length, cfg.chunkSize,
                  (chunksOf cfg.chunkSize data).map
                    (fun c => ⟨cfg.sha c, c.length⟩)⟩)],
             chunks := (writeChunks cfg st
               (chunksOf cfg.chunkSize data)).chunks }) :=
        save_chunked_core_fresh cfg st data hx
      have hend : restore_file_version cfg
          ({ files := st.files ++
              [(cfg.sha data ++ MANIFEST_EXT,
                .manifest ⟨cfg.sha data, data.length, cfg.chunkSize,
                  (chunksOf cfg.chunkSize data).map
                    (fun c => ⟨cfg.sha c, c.length⟩)⟩)],
             chunks := (writeChunks cfg st
               (chunksOf cfg.chunkSize data)).chunks } : Store)
          (cfg.sha data ++ MANIFEST_EXT) = some data := by
        have hfindW : assocFind (cfg.sha data ++ MANIFEST_EXT)
            (st.files ++
              [(cfg.sha data ++ MANIFEST_EXT,
                StoredFile.manifest ⟨cfg.sha data, data.length, cfg.chunkSize,
                  (chunksOf cfg.chunkSize data).map
                    (fun c => ⟨cfg.sha c, c.length⟩)⟩)]) =
            some (.manifest ⟨cfg.sha data, data.length, cfg.chunkSize,
              (chunksOf cfg.chunkSize data).map
                (fun c => ⟨cfg.sha c, c.length⟩)⟩) := by
          rw [assocFind_append_none hx, assocFind_singleton, if_pos rfl]
        rw [restore_manifest_file cfg _ (cfg.sha data) _ hfindW]
        have hself : ∀ c ∈ chunksOf cfg.chunkSize data,
            assocFind (cfg.sha c ++ chunkExt)
              ({ files := st.files ++
                  [(cfg.sha data ++ MANIFEST_EXT,
                    StoredFile.manifest ⟨cfg.sha data, data.length,
                      cfg.chunkSize,
                      (chunksOf cfg.chunkSize data).map
                        (fun c => ⟨cfg.sha c, c.length⟩)⟩)],
                 chunks := (writeChunks cfg st
                   (chunksOf cfg.chunkSize data)).chunks } : Store).chunks =
              some c := by
          intro c hc
          exact writeChunks_find_self cfg (chunksOf cfg.chunkSize data) st
            hchunk hinj c hc
        have hrd := readChunks_of_find cfg _ (chunksOf cfg.chunkSize data) hself
        show readChunks _ ((chunksOf cfg.chunkSize data).map
          (fun c => (⟨cfg.sha c, c.length⟩ : ChunkRef))) = some data
        rw [hrd, chunksOf_join cfg.chunkSize hk data]
      rcases hkk with rfl | rfl
      · have h1 : save_file_version cfg st (some data) none =
            (some ⟨cfg.sha data ++ MANIFEST_EXT, cfg.sha data, data.length,
              cfg.sha data ++ MANIFEST_EXT⟩,
             { files := st.files ++
                [(cfg.sha data ++ MANIFEST_EXT,
                  .manifest ⟨cfg.sha data, data.length, cfg.chunkSize,
                    (chunksOf cfg.chunkSize data).map
                      (fun c => ⟨cfg.sha c, c.length⟩)⟩)],
               chunks := (writeChunks cfg st
                 (chunksOf cfg.chunkSize data)).chunks }) := by
          simp only [save_file_version, save_chunked_file]
          rw [if_pos hsizeg, hcore]
        rw [h1] at hsave
        obtain ⟨hm, hs⟩ := pair_some_extract hsave
        rw [hm, hs]
        exact hend
      · have h1 : save_file_version cfg st (some data) (some (cfg.sha data)) =
            (some ⟨cfg.sha data ++ MANIFEST_EXT, cfg.sha data, data.length,
              cfg.sha data ++ MANIFEST_EXT⟩,
             { files := st.files ++
                [(cfg.sha data ++ MANIFEST_EXT,
                  .manifest ⟨cfg.sha data, data.length, cfg.chunkSize,
                    (chunksOf cfg.chunkSize data).map
                      (fun c => ⟨cfg.sha c, c.length⟩)⟩)],
               chunks := (writeChunks cfg st
                 (chunksOf cfg.chunkSize data)).chunks }) := by
          simp only [save_file_version]
          rw [if_pos hsizeg, save_chunked_file_fresh_known cfg st data _ hx,
            hcore]
        rw [h1] at hsave
        obtain ⟨hm, hs⟩ := pair_some_extract hsave
        rw [hm, hs]
        exact hend

theorem cas_roundtrip_spec_witness :
    (∀ meta st', save_file_version mockCfg ⟨[], []⟩ (some [1, 2, 3])
        (some (mockCfg.sha [1, 2, 3])) = (some meta, st') →
      restore_file_version mockCfg st' meta.storage_path = some [1, 2, 3]) ∧
    (∀ meta st', save_file_version mockCfg ⟨[], []⟩ (some [1, 2, 3]) none =
        (some meta, st') →
      restore_file_version mockCfg st' meta.storage_path = some [1, 2, 3]) ∧
    (∀ meta st', save_file_version mockCfg ⟨[], []⟩ (some [1, 2, 3, 4, 5])
        none = (some meta, st') →
      restore_file_version mockCfg st' meta.storage_path =
        some [1, 2, 3, 4, 5]) := by
  refine ⟨?_, ?_, ?_⟩
  · exact (cas_roundtrip_spec mockCfg ⟨[], []⟩ [1, 2, 3]
      (fun b => rfl)
      (fun f hf => by exact absurd hf (by simp [assocFind]))
      (fun f hf => by exact absurd hf (by simp [assocFind]))
      (fun c _ b hb => by exact absurd hb (by simp [assocFind]))
      (by decide) (by decide)).1 (by decide)
  · exact (cas_roundtrip_spec mockCfg ⟨[], []⟩ [1, 2, 3]
      (fun b => rfl)
      (fun f hf => by exact absurd hf (by simp [assocFind]))
      (fun f hf => by exact absurd hf (by simp [assocFind]))
      (fun c _ b hb => by exact absurd hb (by simp [assocFind]))
      (by decide) (by decide)).2.1 (by decide)
  · exact (cas_roundtrip_spec mockCfg ⟨[], []⟩ [1, 2, 3, 4, 5]
      (fun b => rfl)
      (fun f hf => by exact absurd hf (by simp [assocFind]))
      (fun f hf => by exact absurd hf (by simp [assocFind]))
      (fun c _ b hb => by exact absurd hb (by simp [assocFind]))
      (by decide) (by decide)).2.2 (by decide) none (Or.inl rfl)

end Locus
